import Mathlib

/-!
A verification development for the scheduling core of the appointment-booking
chatbot (`src/chatbot.py`, `src/intent.py`).

Modelling conventions (a shallow embedding of the Python source):
- `datetime` values are instants on a linear time line, embedded as `Int`
  (microseconds, the resolution of Python's `datetime`); `timedelta(hours=1)`
  is the constant `oneHour`.  The scheduling code uses datetimes only through
  `<=` comparisons and `+ timedelta`, which this embedding preserves.
- `uuid.UUID` values are embedded as `Nat` (a UUID is a 128-bit number);
  `uuid.uuid4()` draws a random fresh id, embedded by passing the drawn id
  into `book_first_available` as an explicit argument `newId`.
- Python `set[str]` fields (`zones`, `business_units`) are used only through
  membership tests, embedded as `List String` with `∈`.
- Python list mutation (`appointments.append(...)`) is embedded by state
  passing: `book_first_available` returns the updated ledger as the second
  component of its result.
-/

/-- `Technician` record of `chatbot.py` (`@dataclass(frozen=True)`). -/
structure Technician where
  technician_id : Int
  name : String
  zones : List String
  business_units : List String
deriving DecidableEq, Repr

/-- `Appointment` record of `chatbot.py` (`@dataclass(frozen=True)`).
The Python field `end` is a Lean keyword and is spelled `end_` here. -/
structure Appointment where
  appointment_id : Nat
  technician_id : Int
  start : Int
  end_ : Int
  trade : String
deriving DecidableEq, Repr

/-- `timedelta(hours=1)` in microseconds, the resolution of `datetime`. -/
def oneHour : Int := 3600000000

/-- `find_matching_technicians` of `chatbot.py`: the list comprehension
`[t for t in technicians if trade in t.business_units and zip_code in t.zones]`. -/
def find_matching_technicians (trade : String) (zip_code : String)
    (technicians : List Technician) : List Technician :=
  technicians.filter (fun t => trade ∈ t.business_units ∧ zip_code ∈ t.zones)

/-- `is_technician_available` of `chatbot.py`: the `for appt in appointments`
loop with `continue` on a foreign technician_id and early `return False` when
`not (end <= appt.start or appt.end <= start)`. -/
def is_technician_available (technician : Technician) (start : Int) (end_ : Int) :
    List Appointment → Bool
  | [] => true
  | appt :: rest =>
    if appt.technician_id ≠ technician.technician_id then
      is_technician_available technician start end_ rest
    else if ¬ (end_ ≤ appt.start ∨ appt.end_ ≤ start) then
      false
    else
      is_technician_available technician start end_ rest

/-- The interval-overlap test of the spec, §4.3: `[s1,e1)` and `[s2,e2)`
overlap iff `NOT (e1 <= s2 OR e2 <= s1)`.  This is the condition guarding
`return False` inside `is_technician_available`. -/
def overlaps (s1 e1 s2 e2 : Int) : Bool :=
  ¬ (e1 ≤ s2 ∨ e2 ≤ s1)

/-- The `for tech in matches` loop of `book_first_available`: first available
technician gets the appointment; the ledger is returned as updated state. -/
def book_loop (trade : String) (service_time : Int) (newId : Nat) :
    List Technician → List Appointment → Option (Technician × Nat) × List Appointment
  | [], appointments => (none, appointments)
  | tech :: rest, appointments =>
    let start := service_time
    let end_ := service_time + oneHour
    if is_technician_available tech start end_ appointments then
      (some (tech, newId),
       appointments ++ [{ appointment_id := newId, technician_id := tech.technician_id,
                          start := start, end_ := end_, trade := trade }])
    else
      book_loop trade service_time newId rest appointments

/-- `book_first_available` of `chatbot.py`.  `newId` embeds the value drawn by
`uuid.uuid4()`; the mutated `appointments` list is the second component. -/
def book_first_available (trade : String) (zip_code : String) (service_time : Int)
    (technicians : List Technician) (appointments : List Appointment) (newId : Nat) :
    Option (Technician × Nat) × List Appointment :=
  let found := find_matching_technicians trade zip_code technicians
  if found.isEmpty then (none, appointments)
  else book_loop trade service_time newId found appointments

/-- Two appointments do not double-book: if they are for the same technician
their half-open intervals do not overlap. -/
def NoOverlapPair (a b : Appointment) : Prop :=
  a.technician_id = b.technician_id → a.end_ ≤ b.start ∨ b.end_ ≤ a.start

instance (a b : Appointment) : Decidable (NoOverlapPair a b) := by
  unfold NoOverlapPair; infer_instance

/-- The ledger invariant of the spec, §3: for any given technician_id, no two
appointments in the ledger have overlapping `[start, end)` intervals. -/
def LedgerInvariant (l : List Appointment) : Prop :=
  l.Pairwise NoOverlapPair

/-- One booking request, as handed to `book_first_available` by the (excluded)
conversational layer; `newId` embeds the `uuid.uuid4()` draw of that call. -/
structure BookingRequest where
  trade : String
  zip_code : String
  service_time : Int
  newId : Nat
deriving DecidableEq, Repr

/-- A sequence of `book_first_available` calls against one technician roster,
each call running on the ledger the previous call left behind. -/
def run_bookings (technicians : List Technician) :
    List BookingRequest → List Appointment → List Appointment
  | [], l => l
  | r :: rest, l =>
      run_bookings technicians rest
        (book_first_available r.trade r.zip_code r.service_time technicians l r.newId).2

-- ------------------------------------------------------------------
-- Helper lemmas shared by several claims
-- ------------------------------------------------------------------

theorem is_technician_available_cons (t : Technician) (s e : Int) (a : Appointment)
    (rest : List Appointment) :
    is_technician_available t s e (a :: rest) =
      ((a.technician_id != t.technician_id || decide (e ≤ a.start ∨ a.end_ ≤ s)) &&
        is_technician_available t s e rest) := by
  by_cases hid : a.technician_id = t.technician_id
  · by_cases hov : e ≤ a.start ∨ a.end_ ≤ s
    · simp [is_technician_available, hid, hov]
    · simp [is_technician_available, hid, hov]
  · simp [is_technician_available, hid]

/-- `is_technician_available` holds iff no same-technician appointment in the
ledger overlaps the queried interval. -/
theorem is_technician_available_iff (t : Technician) (s e : Int)
    (l : List Appointment) :
    is_technician_available t s e l = true ↔
      ∀ a ∈ l, a.technician_id = t.technician_id → e ≤ a.start ∨ a.end_ ≤ s := by
  induction l with
  | nil => simp [is_technician_available]
  | cons a rest ih =>
    rw [is_technician_available_cons]
    simp only [Bool.and_eq_true, Bool.or_eq_true, bne_iff_ne, ne_eq,
      decide_eq_true_eq, ih, List.mem_cons]
    constructor
    · rintro ⟨ha, hrest⟩ b (rfl | hb) hbid
      · rcases ha with hne | hov
        · exact absurd hbid hne
        · exact hov
      · exact hrest b hb hbid
    · intro h
      refine ⟨?_, fun b hb hbid => h b (Or.inr hb) hbid⟩
      by_cases hid : a.technician_id = t.technician_id
      · exact Or.inr (h a (Or.inl rfl) hid)
      · exact Or.inl hid

theorem is_technician_available_append (t : Technician) (s e : Int)
    (l1 l2 : List Appointment) :
    is_technician_available t s e (l1 ++ l2) =
      (is_technician_available t s e l1 && is_technician_available t s e l2) := by
  induction l1 with
  | nil => simp [is_technician_available]
  | cons a rest ih =>
    rw [List.cons_append, is_technician_available_cons, is_technician_available_cons,
      ih, Bool.and_assoc]

theorem book_loop_eq (trade : String) (service_time : Int) (newId : Nat)
    (ms : List Technician) (appointments : List Appointment) :
    book_loop trade service_time newId ms appointments =
      match ms.find?
          (fun t => is_technician_available t service_time (service_time + oneHour)
                      appointments) with
      | none => (none, appointments)
      | some t => (some (t, newId),
          appointments ++ [{ appointment_id := newId, technician_id := t.technician_id,
                             start := service_time, end_ := service_time + oneHour,
                             trade := trade }]) := by
  induction ms with
  | nil => simp [book_loop]
  | cons t rest ih =>
    cases h : is_technician_available t service_time (service_time + oneHour)
        appointments with
    | true => simp [book_loop, List.find?_cons, h]
    | false => simp [book_loop, List.find?_cons, h, ih]

/-- `book_first_available` equals: find the first matching available
technician, and on success append exactly one appointment for it. -/
theorem book_first_available_eq (trade zip_code : String) (service_time : Int)
    (technicians : List Technician) (appointments : List Appointment) (newId : Nat) :
    book_first_available trade zip_code service_time technicians appointments newId =
      match (find_matching_technicians trade zip_code technicians).find?
          (fun t => is_technician_available t service_time (service_time + oneHour)
                      appointments) with
      | none => (none, appointments)
      | some t => (some (t, newId),
          appointments ++ [{ appointment_id := newId, technician_id := t.technician_id,
                             start := service_time, end_ := service_time + oneHour,
                             trade := trade }]) := by
  have hunfold : book_first_available trade zip_code service_time technicians
        appointments newId =
      if (find_matching_technicians trade zip_code technicians).isEmpty then
        (none, appointments)
      else
        book_loop trade service_time newId
          (find_matching_technicians trade zip_code technicians) appointments := rfl
  rw [hunfold]
  by_cases h : (find_matching_technicians trade zip_code technicians).isEmpty = true
  · rw [if_pos h]
    have hnil : find_matching_technicians trade zip_code technicians = [] := by
      cases hc : find_matching_technicians trade zip_code technicians
      · rfl
      · rw [hc] at h; simp at h
    rw [hnil]
    simp [List.find?]
  · rw [if_neg h]
    exact book_loop_eq _ _ _ _ _

/-- A sample technician for the concrete witnesses: Scenario 1 of the spec
(technician 7 covers zone "10001" and trade "plumbing"). -/
def tech7 : Technician :=
  { technician_id := 7, name := "Alex", zones := ["10001"],
    business_units := ["plumbing"] }

-- ------------------------------------------------------------------
-- Claim theorems
-- ------------------------------------------------------------------

/-- C3: `is_technician_available(technician, start, end, ledger)` returns true
iff no appointment in the ledger with the same technician_id overlaps
`[start, end)`, where `[s1,e1)` and `[s2,e2)` overlap iff
`NOT (e1 <= s2 OR e2 <= s1)`; and an appointment ending exactly at time X
never conflicts with a request starting exactly at X (half-open boundary). -/
theorem C3_availability_overlap (t : Technician) (s e : Int) (l : List Appointment) :
    (is_technician_available t s e l = true ↔
      ∀ a ∈ l, a.technician_id = t.technician_id →
        overlaps a.start a.end_ s e = false) ∧
    (∀ s1 e1 s2 e2 : Int, overlaps s1 e1 s2 e2 = true ↔ ¬ (e1 ≤ s2 ∨ e2 ≤ s1)) ∧
    (∀ (a : Appointment) (e2 : Int), overlaps a.start a.end_ a.end_ e2 = false) := by
  refine ⟨?_, ?_, ?_⟩
  · rw [is_technician_available_iff]
    constructor
    · intro h a ha hid
      simp only [overlaps, decide_eq_false_iff_not, not_not]
      rcases h a ha hid with hle | hle
      · exact Or.inr hle
      · exact Or.inl hle
    · intro h a ha hid
      have := h a ha hid
      simp only [overlaps, decide_eq_false_iff_not, not_not] at this
      rcases this with hle | hle
      · exact Or.inr hle
      · exact Or.inl hle
  · intro s1 e1 s2 e2
    simp [overlaps]
  · intro a e2
    simp [overlaps]

/-- C8: `find_matching_technicians` returns exactly the technicians whose
`business_units` contain the trade and whose `zones` contain the zip, in the
stable order of the input list (it is a sublist of the input, so no
reordering or ranking). -/
theorem C8_matcher_membership_order (trade zip_code : String)
    (technicians : List Technician) :
    (∀ t, t ∈ find_matching_technicians trade zip_code technicians ↔
      (t ∈ technicians ∧ trade ∈ t.business_units ∧ zip_code ∈ t.zones)) ∧
    (find_matching_technicians trade zip_code technicians).Sublist technicians := by
  constructor
  · intro t
    simp [find_matching_technicians, List.mem_filter]
  · exact List.filter_sublist _

/-- C2: `book_first_available` computes `end = requested_start + 1 hour`,
returns `none` when the matcher's candidate list is empty, and otherwise, for
the first candidate (in matcher order) for which `is_technician_available`
holds, appends exactly one new `Appointment` carrying that technician's id,
the interval `[requested_start, requested_start + 1 hour)`, the given trade
and the freshly drawn identifier `newId`, returning the technician with that
identifier.  When `newId` collides with no existing appointment identifier
(as `uuid.uuid4()` guarantees with overwhelming probability), the resulting
ledger holds exactly one appointment with that identifier. -/
theorem C2_book_first_available_spec (trade zip_code : String) (service_time : Int)
    (technicians : List Technician) (appointments : List Appointment) (newId : Nat) :
    (book_first_available trade zip_code service_time technicians appointments newId =
      match (find_matching_technicians trade zip_code technicians).find?
          (fun t => is_technician_available t service_time (service_time + oneHour)
                      appointments) with
      | none => (none, appointments)
      | some t => (some (t, newId),
          appointments ++ [{ appointment_id := newId, technician_id := t.technician_id,
                             start := service_time, end_ := service_time + oneHour,
                             trade := trade }])) ∧
    ((∀ a ∈ appointments, a.appointment_id ≠ newId) →
      ∀ t l', book_first_available trade zip_code service_time technicians
            appointments newId = (some (t, newId), l') →
        l'.countP (fun a => a.appointment_id == newId) = 1) := by
  refine ⟨book_first_available_eq trade zip_code service_time technicians
    appointments newId, ?_⟩
  intro hfresh t l' hsucc
  rw [book_first_available_eq] at hsucc
  cases hfind : (find_matching_technicians trade zip_code technicians).find?
      (fun t => is_technician_available t service_time (service_time + oneHour)
        appointments) with
  | none => rw [hfind] at hsucc; simp at hsucc
  | some t0 =>
    rw [hfind] at hsucc
    have hl : l' = appointments ++
        [{ appointment_id := newId, technician_id := t0.technician_id,
           start := service_time, end_ := service_time + oneHour, trade := trade }] := by
      have := (Prod.mk.injEq _ _ _ _).mp hsucc
      exact this.2.symm
    subst hl
    rw [List.countP_append]
    have h0 : appointments.countP (fun a => a.appointment_id == newId) = 0 := by
      rw [List.countP_eq_zero]
      intro a ha
      simp [hfresh a ha]
    rw [h0]
    simp [List.countP_cons]

/-- Witness for C2 at Scenario 1 of the spec: one matching technician, empty
ledger, fresh id 42. -/
theorem C2_book_first_available_spec_witness :
    (∀ a ∈ ([] : List Appointment), a.appointment_id ≠ 42) ∧
    (∀ t l', book_first_available "plumbing" "10001" 0 [tech7] [] 42 =
          (some (t, 42), l') →
      l'.countP (fun a => a.appointment_id == 42) = 1) :=
  ⟨by simp,
   (C2_book_first_available_spec "plumbing" "10001" 0 [tech7] [] 42).2 (by simp)⟩

/-- C6: whenever `book_first_available` returns no-availability (`none`) —
because no technician matches the trade and zip, or none of the matching
technicians is available — the ledger it hands back is exactly the ledger it
was given: no partial or extra appointment is recorded on failure. -/
theorem C6_failure_leaves_ledger_unchanged (trade zip_code : String)
    (service_time : Int) (technicians : List Technician)
    (appointments l' : List Appointment) (newId : Nat)
    (h : book_first_available trade zip_code service_time technicians
        appointments newId = (none, l')) :
    l' = appointments := by
  rw [book_first_available_eq] at h
  cases hfind : (find_matching_technicians trade zip_code technicians).find?
      (fun t => is_technician_available t service_time (service_time + oneHour)
        appointments) with
  | none =>
    rw [hfind] at h
    exact ((Prod.mk.injEq _ _ _ _).mp h).2.symm
  | some t0 => rw [hfind] at h; simp at h

/-- Witness for C6: no technician covers zip "99999", the booking fails and
the (empty) ledger is unchanged. -/
theorem C6_failure_witness :
    book_first_available "plumbing" "99999" 0 [tech7] [] 0 = (none, []) ∧
    ([] : List Appointment) = [] :=
  ⟨by decide,
   C6_failure_leaves_ledger_unchanged "plumbing" "99999" 0 [tech7] [] [] 0 (by decide)⟩

/-- C5: immediately after a successful booking of technician `t` with interval
`[service_time, service_time + 1 hour)`, `is_technician_available` is false
for `t` on that interval against the updated ledger; and for every technician
id other than the selected technician's, the appointments carrying that id
are exactly those of the original ledger. -/
theorem C5_post_booking_frame (trade zip_code : String) (service_time : Int)
    (technicians : List Technician) (appointments l' : List Appointment)
    (t : Technician) (cid newId : Nat)
    (h : book_first_available trade zip_code service_time technicians
        appointments newId = (some (t, cid), l')) :
    is_technician_available t service_time (service_time + oneHour) l' = false ∧
    ∀ tid : Int, tid ≠ t.technician_id →
      l'.filter (fun a => a.technician_id == tid) =
        appointments.filter (fun a => a.technician_id == tid) := by
  rw [book_first_available_eq] at h
  cases hfind : (find_matching_technicians trade zip_code technicians).find?
      (fun t => is_technician_available t service_time (service_time + oneHour)
        appointments) with
  | none => rw [hfind] at h; simp at h
  | some t0 =>
    rw [hfind] at h
    have hinj := (Prod.mk.injEq _ _ _ _).mp h
    have ht : t0 = t := by
      have := hinj.1
      simp only [Option.some.injEq, Prod.mk.injEq] at this
      exact this.1
    subst ht
    have hl : l' = appointments ++
        [{ appointment_id := newId, technician_id := t0.technician_id,
           start := service_time, end_ := service_time + oneHour, trade := trade }] :=
      hinj.2.symm
    subst hl
    have hpos : ¬ (service_time + oneHour ≤ service_time) := by
      simp only [oneHour]
      omega
    constructor
    · rw [is_technician_available_append, is_technician_available_cons]
      simp [hpos, is_technician_available]
    · intro tid htid
      rw [List.filter_append]
      have hne : (t0.technician_id == tid) = false := by
        rw [beq_eq_false_iff_ne]
        exact fun hcontra => htid hcontra.symm
      simp [List.filter_cons, hne]

/-- Witness for C5 at Scenario 1: the successful booking makes technician 7
unavailable for the booked hour, and appointments of other ids are untouched. -/
theorem C5_post_booking_frame_witness :
    is_technician_available tech7 0 (0 + oneHour)
        [{ appointment_id := 42, technician_id := 7, start := 0,
           end_ := 0 + oneHour, trade := "plumbing" }] = false ∧
    ∀ tid : Int, tid ≠ tech7.technician_id →
      List.filter (fun a => a.technician_id == tid)
          [{ appointment_id := 42, technician_id := 7, start := 0,
             end_ := 0 + oneHour, trade := "plumbing" }] =
        List.filter (fun a => a.technician_id == tid) ([] : List Appointment) :=
  C5_post_booking_frame "plumbing" "10001" 0 [tech7] []
    [{ appointment_id := 42, technician_id := 7, start := 0,
       end_ := 0 + oneHour, trade := "plumbing" }] tech7 42 42 (by decide)

theorem book_preserves_invariant (trade zip_code : String) (service_time : Int)
    (technicians : List Technician) (l : List Appointment) (newId : Nat)
    (h : LedgerInvariant l) :
    LedgerInvariant
      (book_first_available trade zip_code service_time technicians l newId).2 := by
  rw [book_first_available_eq]
  cases hfind : (find_matching_technicians trade zip_code technicians).find?
      (fun t => is_technician_available t service_time (service_time + oneHour) l) with
  | none => exact h
  | some t =>
    simp only []
    have havail : is_technician_available t service_time (service_time + oneHour) l
        = true := by
      have := List.find?_some hfind
      simpa using this
    rw [is_technician_available_iff] at havail
    unfold LedgerInvariant
    rw [List.pairwise_append]
    refine ⟨h, List.pairwise_singleton _ _, ?_⟩
    intro a ha b hb
    simp only [List.mem_singleton] at hb
    subst hb
    intro hid
    simp only at hid
    rcases havail a ha hid with hle | hle
    · exact Or.inr hle
    · exact Or.inl hle

/-- C4: from any ledger satisfying the no-double-booking invariant (pairwise
non-overlapping half-open intervals per technician id), any sequence of
`book_first_available` calls — in particular any sequence of successful ones —
leaves a ledger still satisfying the invariant. -/
theorem C4_no_double_booking (technicians : List Technician)
    (reqs : List BookingRequest) (l : List Appointment)
    (h : LedgerInvariant l) :
    LedgerInvariant (run_bookings technicians reqs l) := by
  induction reqs generalizing l with
  | nil => exact h
  | cons r rest ih =>
    exact ih _ (book_preserves_invariant r.trade r.zip_code r.service_time
      technicians l r.newId h)

/-- Witness for C4: two identical requests against one technician; the second
booking fails (overlap) and the invariant survives. -/
theorem C4_no_double_booking_witness :
    LedgerInvariant ([] : List Appointment) ∧
    LedgerInvariant (run_bookings [tech7]
      [{ trade := "plumbing", zip_code := "10001", service_time := 0, newId := 1 },
       { trade := "plumbing", zip_code := "10001", service_time := 0, newId := 2 }]
      []) :=
  ⟨List.Pairwise.nil,
   C4_no_double_booking [tech7]
     [{ trade := "plumbing", zip_code := "10001", service_time := 0, newId := 1 },
      { trade := "plumbing", zip_code := "10001", service_time := 0, newId := 2 }]
     [] List.Pairwise.nil⟩

-- ------------------------------------------------------------------
-- Persistence: appointments.jsonl (load_appointments / save_appointments)
-- ------------------------------------------------------------------

/-- The JSON object `save_appointments` writes on one line: `asdict(appt)`
with `appointment_id` replaced by `str(appt.appointment_id)` and
`start`/`end` by their `isoformat()` strings.  `str`/`uuid.UUID` and
`isoformat`/`fromisoformat` are inverse bijections of the Python standard
library on valid values, so this embedding stores the underlying id and
instants themselves; the encoding to text is the identity of this record. -/
structure ApptRecord where
  appointment_id : Nat
  technician_id : Int
  start : Int
  end_ : Int
  trade : String
deriving DecidableEq, Repr

/-- One line of the `appointments.jsonl` file as `load_appointments` sees it:
`good r` is a line whose `json.loads` yields a dict holding the five expected
keys with values that `uuid.UUID` / `int` / `datetime.fromisoformat` accept;
`bad` is any other line — malformed JSON, a missing key, an invalid UUID or
timestamp string — on which the corresponding Python call raises. -/
inductive JsonLine where
  | good (r : ApptRecord)
  | bad
deriving DecidableEq, Repr

/-- The body of the `for line in f` loop of `load_appointments`:
`json.loads(line)` plus the field conversions, which either produce an
`Appointment` or raise (modelled as `Except.error`). -/
def parse_line : JsonLine → Except String Appointment
  | .good r => .ok { appointment_id := r.appointment_id,
                     technician_id := r.technician_id,
                     start := r.start, end_ := r.end_, trade := r.trade }
  | .bad => .error "ValueError"

/-- The `for line in f` loop of `load_appointments`: appointments are
accumulated in file order; the first raising line aborts the whole load
(the exception propagates out of `load_appointments`). -/
def load_lines : List JsonLine → Except String (List Appointment)
  | [] => .ok []
  | line :: rest =>
    match parse_line line with
    | .error e => .error e
    | .ok a =>
      match load_lines rest with
      | .error e => .error e
      | .ok as_ => .ok (a :: as_)

/-- `load_appointments` of `chatbot.py`.  The file system state is `none`
when `appointments_file_path.exists()` is false and `some lines` otherwise;
a missing file yields the empty ledger, an existing file is parsed line by
line with any parse failure propagating as an error. -/
def load_appointments : Option (List JsonLine) → Except String (List Appointment)
  | none => .ok []
  | some lines => load_lines lines

/-- `save_appointments` of `chatbot.py`: the full ledger is rewritten, one
JSON record per line, in ledger order. -/
def save_appointments (appointments : List Appointment) : List JsonLine :=
  appointments.map (fun a =>
    .good { appointment_id := a.appointment_id, technician_id := a.technician_id,
            start := a.start, end_ := a.end_, trade := a.trade })

/-- C7: round-trip persistence.  For every ledger `L`, `save(L)` followed by
`load()` yields exactly `L` — the same appointments with every field
(identifier, technician id, timestamps, trade) preserved — and `save(L)`
writes one independently parseable record per appointment. -/
theorem C7_save_load_roundtrip (l : List Appointment) :
    load_appointments (some (save_appointments l)) = Except.ok l ∧
    (save_appointments l).length = l.length ∧
    ∀ line ∈ save_appointments l, ∃ a, parse_line line = Except.ok a := by
  refine ⟨?_, by simp [save_appointments], ?_⟩
  · show load_lines (save_appointments l) = Except.ok l
    induction l with
    | nil => rfl
    | cons a rest ih =>
      show load_lines (JsonLine.good _ :: save_appointments rest) = _
      simp only [load_lines, parse_line, ih]
  · intro line hline
    simp only [save_appointments, List.mem_map] at hline
    obtain ⟨a, _, rfl⟩ := hline
    exact ⟨_, rfl⟩

/-- Counterexample to C1 as stated: on a file that exists but whose (only)
line is corrupt, `load_appointments` raises (`json.loads` / `uuid.UUID` /
`fromisoformat` propagate a `ValueError`/`JSONDecodeError`) instead of
degrading to an empty ledger. -/
theorem C1_counterexample :
    load_appointments (some [JsonLine.bad]) = Except.error "ValueError" ∧
    load_appointments (some [JsonLine.bad]) ≠ Except.ok [] := by
  constructor
  · rfl
  · intro hcontra
    rw [show load_appointments (some [JsonLine.bad]) = Except.error "ValueError"
      from rfl] at hcontra
    exact Except.noConfusion hcontra

/-- C1 as amended: `load_appointments` returns the empty ledger when no prior
storage exists (the file is missing), but when storage exists and contains a
corrupt line the load raises the parse error instead of degrading to an
empty ledger — corrupt storage does crash the load. -/
theorem C1_load_missing_empty_corrupt_raises (lines : List JsonLine) :
    load_appointments none = Except.ok [] ∧
    (JsonLine.bad ∈ lines → ∃ msg, load_appointments (some lines) = Except.error msg) := by
  refine ⟨rfl, ?_⟩
  intro hbad
  show ∃ msg, load_lines lines = Except.error msg
  induction lines with
  | nil => cases hbad
  | cons line rest ih =>
    cases line with
    | bad => exact ⟨"ValueError", rfl⟩
    | good r =>
      have hrest : JsonLine.bad ∈ rest := by
        rcases List.mem_cons.mp hbad with hc | hc
        · exact absurd hc (by intro hcontra; cases hcontra)
        · exact hc
      obtain ⟨msg, hmsg⟩ := ih hrest
      refine ⟨msg, ?_⟩
      simp only [load_lines, parse_line, hmsg]

-- ------------------------------------------------------------------
-- Intent detection (`src/intent.py`)
-- ------------------------------------------------------------------

/-- The `Intent` enum of `intent.py`. -/
inductive Intent where
  | FAQ_LOCATIONS
  | FAQ_SERVICES
  | UNKNOWN
deriving DecidableEq, Repr

/-- `LOCATION_KEYWORDS` of `intent.py`, in source order. -/
def LOCATION_KEYWORDS : List String :=
  ["location", "locations", "serve", "service area", "zip", "hours", "open"]

/-- `SERVICE_KEYWORDS` of `intent.py`, in source order. -/
def SERVICE_KEYWORDS : List String :=
  ["service", "services", "offer", "do you handle", "what do you do"]

/-- Python's `needle.startswith` on character lists (used to build substring
containment): the needle is a prefix of the haystack. -/
def startsWith : List Char → List Char → Bool
  | [], _ => true
  | _ :: _, [] => false
  | a :: as_, b :: bs => a == b && startsWith as_ bs

/-- Python's `needle in haystack` on strings: substring containment. -/
def containsSub (needle : List Char) : List Char → Bool
  | [] => needle.isEmpty
  | c :: rest => startsWith needle (c :: rest) || containsSub needle rest

/-- `detect_intent` of `intent.py`: lower-case the message (`.lower()` is
per-character for the ASCII texts in scope, embedded as `Char.toLower`), then
first-match keyword containment — location keywords first, service keywords
second, `UNKNOWN` otherwise.  The Python `message or ""` `None` guard is
outside this embedding, whose messages are always strings. -/
def detect_intent (message : String) : Intent :=
  let text := message.data.map Char.toLower
  if LOCATION_KEYWORDS.any (fun k => containsSub k.data text) then
    Intent.FAQ_LOCATIONS
  else if SERVICE_KEYWORDS.any (fun k => containsSub k.data text) then
    Intent.FAQ_SERVICES
  else
    Intent.UNKNOWN

theorem detect_intent_def (message : String) :
    detect_intent message =
      if LOCATION_KEYWORDS.any
          (fun k => containsSub k.data (message.data.map Char.toLower)) then
        Intent.FAQ_LOCATIONS
      else if SERVICE_KEYWORDS.any
          (fun k => containsSub k.data (message.data.map Char.toLower)) then
        Intent.FAQ_SERVICES
      else
        Intent.UNKNOWN := rfl

theorem startsWith_trans (p n h : List Char) (hpn : startsWith p n = true)
    (hnh : startsWith n h = true) : startsWith p h = true := by
  induction p generalizing n h with
  | nil => rfl
  | cons a as_ ih =>
    cases n with
    | nil => simp [startsWith] at hpn
    | cons b bs =>
      cases h with
      | nil => simp [startsWith] at hnh
      | cons c cs =>
        simp only [startsWith, Bool.and_eq_true, beq_iff_eq] at hpn hnh ⊢
        exact ⟨hpn.1.trans hnh.1, ih bs cs hpn.2 hnh.2⟩

theorem startsWith_map (f : Char → Char) (p h : List Char)
    (hs : startsWith p h = true) : startsWith (p.map f) (h.map f) = true := by
  induction p generalizing h with
  | nil => rfl
  | cons a as_ ih =>
    cases h with
    | nil => simp [startsWith] at hs
    | cons b bs =>
      simp only [startsWith, Bool.and_eq_true, beq_iff_eq] at hs
      simp only [List.map_cons, startsWith, Bool.and_eq_true, beq_iff_eq]
      exact ⟨by rw [hs.1], ih bs hs.2⟩

theorem containsSub_map (f : Char → Char) (n h : List Char)
    (hc : containsSub n h = true) : containsSub (n.map f) (h.map f) = true := by
  induction h with
  | nil =>
    simp only [containsSub, List.isEmpty_iff] at hc
    subst hc
    rfl
  | cons c cs ih =>
    simp only [containsSub, Bool.or_eq_true] at hc
    rcases hc with hs | hc
    · simp only [List.map_cons, containsSub, Bool.or_eq_true]
      exact Or.inl (by simpa using startsWith_map f n (c :: cs) hs)
    · simp only [List.map_cons, containsSub, Bool.or_eq_true]
      exact Or.inr (ih hc)

theorem containsSub_of_startsWith (p n h : List Char)
    (hpn : startsWith p n = true) (hc : containsSub n h = true) :
    containsSub p h = true := by
  induction h with
  | nil =>
    simp only [containsSub, List.isEmpty_iff] at hc
    subst hc
    cases p with
    | nil => rfl
    | cons a as_ => simp [startsWith] at hpn
  | cons c cs ih =>
    simp only [containsSub, Bool.or_eq_true] at hc ⊢
    rcases hc with hs | hc
    · exact Or.inl (startsWith_trans p n (c :: cs) hpn hs)
    · exact Or.inr (ih hc)

/-- Counterexample to C10 as stated: `"serve"` is not a substring of
`"services"` (after `"serv"` comes `'i'`), so the claim's own example
`"What services do you offer?"` contains no location keyword and
`detect_intent` classifies it `FAQ_SERVICES`, not `FAQ_LOCATIONS`. -/
theorem C10_counterexample :
    containsSub "services".data "What services do you offer?".data = true ∧
    containsSub "serve".data "services".data = false ∧
    LOCATION_KEYWORDS.any
        (fun k => containsSub k.data
          ("What services do you offer?".data.map Char.toLower)) = false ∧
    detect_intent "What services do you offer?" = Intent.FAQ_SERVICES := by
  refine ⟨by decide, by decide, by decide, ?_⟩
  decide

/-- C10 as amended: location keywords do take absolute priority — any message
whose lower-cased text contains a location keyword is classified
`FAQ_LOCATIONS` even when service keywords are also present, and a message
with no location keyword but a service keyword is classified `FAQ_SERVICES`.
But `"serve"` is not a substring of `"services"`, so a message containing
`"services"` and no location keyword — such as `"What services do you
offer?"` — is classified `FAQ_SERVICES`. -/
theorem C10_location_keyword_priority :
    (∀ msg : String,
      LOCATION_KEYWORDS.any
          (fun k => containsSub k.data (msg.data.map Char.toLower)) = true →
      detect_intent msg = Intent.FAQ_LOCATIONS) ∧
    (∀ msg : String,
      LOCATION_KEYWORDS.any
          (fun k => containsSub k.data (msg.data.map Char.toLower)) = false →
      SERVICE_KEYWORDS.any
          (fun k => containsSub k.data (msg.data.map Char.toLower)) = true →
      detect_intent msg = Intent.FAQ_SERVICES) ∧
    containsSub "serve".data "services".data = false ∧
    detect_intent "What services do you offer?" = Intent.FAQ_SERVICES := by
  refine ⟨?_, ?_, by decide, by decide⟩
  · intro msg h
    rw [detect_intent_def, if_pos h]
  · intro msg hloc hserv
    rw [detect_intent_def, if_neg (by simp [hloc]), if_pos hserv]

/-- Witness for C10's universally quantified parts at concrete messages. -/
theorem C10_location_keyword_priority_witness :
    detect_intent "What are your hours?" = Intent.FAQ_LOCATIONS ∧
    detect_intent "What do you offer?" = Intent.FAQ_SERVICES :=
  ⟨C10_location_keyword_priority.1 "What are your hours?" (by decide),
   C10_location_keyword_priority.2.1 "What do you offer?" (by decide) (by decide)⟩

-- ------------------------------------------------------------------
-- parse_datetime (`chatbot.py`), a faithful model of CPython strptime
-- on the two tried formats
-- ------------------------------------------------------------------

/-- The ASCII whitespace class of Python (`str.strip()` with no argument and
the regex class the `_strptime` engine substitutes for a literal space);
non-ASCII whitespace is outside the scope of this embedding. -/
def isPySpace (c : Char) : Bool :=
  c == ' ' || c == '\t' || c == '\n' || c == '\r' || c == '\x0b' || c == '\x0c'

/-- Python `text.strip()`: remove leading and trailing whitespace. -/
def pyStrip (l : List Char) : List Char :=
  ((l.dropWhile isPySpace).reverse.dropWhile isPySpace).reverse

/-- The numeric value of an ASCII digit character. -/
def digitVal (c : Char) : Nat := c.toNat - 48

/-- The result of a successful `datetime.strptime` on the two formats of
`parse_datetime` (both mention year, month, day, hour, minute only; second
and microsecond default to zero). -/
structure PyDateTime where
  year : Nat
  month : Nat
  day : Nat
  hour : Nat
  minute : Nat
deriving DecidableEq, Repr

/-- Gregorian leap year, as Python's `calendar`/`datetime` define it. -/
def isLeap (y : Nat) : Bool :=
  y % 4 == 0 && (!(y % 100 == 0) || y % 400 == 0)

def daysInMonth (y m : Nat) : Nat :=
  if m == 2 then (if isLeap y then 29 else 28)
  else if m == 4 || m == 6 || m == 9 || m == 11 then 30
  else 31

/-- The `datetime(...)` construction at the end of `strptime`, together with
the range constraints the `_strptime` regex enforces on each field (month
1-12, day 1-31, hour 0-23, minute 0-59) — merged here because a violation of
either raises `ValueError`, which `parse_datetime` catches identically.
`datetime` additionally requires year ≥ 1 and the day to exist in the
month. -/
def mkDatetime (y m d h mi : Nat) : Option PyDateTime :=
  if 1 ≤ y ∧ 1 ≤ m ∧ m ≤ 12 ∧ 1 ≤ d ∧ d ≤ daysInMonth y m ∧ h ≤ 23 ∧ mi ≤ 59 then
    some { year := y, month := m, day := d, hour := h, minute := mi }
  else none

/-- `%Y` of `_strptime`: exactly four digits. -/
def take4Digits : List Char → Option (Nat × List Char)
  | c1 :: c2 :: c3 :: c4 :: rest =>
    if c1.isDigit && c2.isDigit && c3.isDigit && c4.isDigit then
      some (((digitVal c1 * 10 + digitVal c2) * 10 + digitVal c3) * 10
              + digitVal c4, rest)
    else none
  | _ => none

/-- `%m`/`%d`/`%H`/`%M` of `_strptime`: one or two digits, taken greedily.
The regex alternations (`1[0-2]|0[1-9]|[1-9]` etc.) are extensionally this
greedy grab followed by `mkDatetime`'s range check, because every separator
that follows such a field in the two formats is a non-digit, so regex
backtracking from two digits to one can never succeed. -/
def take2Digits : List Char → Option (Nat × List Char)
  | [] => none
  | [c] => if c.isDigit then some (digitVal c, []) else none
  | c1 :: c2 :: rest =>
    if c1.isDigit then
      if c2.isDigit then some (digitVal c1 * 10 + digitVal c2, rest)
      else some (digitVal c1, c2 :: rest)
    else none

/-- A literal format character (the `-` and `:` of both formats). -/
def expectChar (c : Char) : List Char → Option (List Char)
  | [] => none
  | d :: rest => if d == c then some rest else none

/-- The literal `T` of the second format; `_strptime` compiles its pattern
with `re.IGNORECASE`, so a lower-case `t` also matches. -/
def expectT : List Char → Option (List Char)
  | [] => none
  | d :: rest => if d == 'T' || d == 't' then some rest else none

/-- The literal space of the first format: `_strptime` replaces any
whitespace run in the format by `\s+`, so it consumes one or more whitespace
characters, greedily. -/
def takeSpaces : List Char → Option (List Char)
  | [] => none
  | c :: rest => if isPySpace c then some (rest.dropWhile isPySpace) else none

/-- One `datetime.strptime(text, fmt)` attempt for a format of the shape
`%Y-%m-%d<sep>%H:%M`, where `sep` parses the separator (whitespace run or
literal `T`).  The final emptiness check is strptime's "unconverted data
remains" error; a `none` anywhere is the `ValueError` that `parse_datetime`
catches before trying the next format. -/
def tryFormat (sep : List Char → Option (List Char)) (l : List Char) :
    Option PyDateTime :=
  (take4Digits l).bind (fun yr =>
    (expectChar '-' yr.2).bind (fun r2 =>
      (take2Digits r2).bind (fun mr =>
        (expectChar '-' mr.2).bind (fun r4 =>
          (take2Digits r4).bind (fun dr =>
            (sep dr.2).bind (fun r6 =>
              (take2Digits r6).bind (fun hr =>
                (expectChar ':' hr.2).bind (fun r8 =>
                  (take2Digits r8).bind (fun nr =>
                    if nr.2 = [] then mkDatetime yr.1 mr.1 dr.1 hr.1 nr.1
                    else none)))))))))

/-- `parse_datetime` of `chatbot.py`: strip, reject empty input, then try
`"%Y-%m-%d %H:%M"` and `"%Y-%m-%dT%H:%M"` in order, returning the first
success and `None` when both raise. -/
def parse_datetime (user_input : String) : Option PyDateTime :=
  let text := pyStrip user_input.data
  if text = [] then none
  else
    match tryFormat takeSpaces text with
    | some dt => some dt
    | none => tryFormat expectT text

theorem parse_datetime_def (s : String) :
    parse_datetime s =
      if pyStrip s.data = [] then none
      else
        match tryFormat takeSpaces (pyStrip s.data) with
        | some dt => some dt
        | none => tryFormat expectT (pyStrip s.data) := rfl

/-- The claim's own reading of the accepted formats, written from the spec's
words: a fixed-width `YYYY-MM-DD HH:MM` or `YYYY-MM-DDTHH:MM` — four digit
characters, a hyphen, two digits, a hyphen, two digits, a space or `T`, two
digits, a colon, two digits. -/
def strictFormatMatch : List Char → Bool
  | [y1, y2, y3, y4, h1, mo1, mo2, h2, d1, d2, sep, hr1, hr2, co, mi1, mi2] =>
    y1.isDigit && y2.isDigit && y3.isDigit && y4.isDigit &&
    h1 == '-' && mo1.isDigit && mo2.isDigit && h2 == '-' &&
    d1.isDigit && d2.isDigit && (sep == ' ' || sep == 'T') &&
    hr1.isDigit && hr2.isDigit && co == ':' && mi1.isDigit && mi2.isDigit
  | _ => false

/-- Counterexample to C9 as stated: `"2025-1-2 3:4"` does not match the
stated formats (month, day, hour and minute are not two digits) yet
`parse_datetime` accepts it — CPython's strptime field patterns also take
single digits; conversely `"2025-02-30 10:00"` matches the stated shape yet
is rejected, because `datetime` refuses February 30. -/
theorem C9_counterexample :
    parse_datetime "2025-1-2 3:4" =
        some { year := 2025, month := 1, day := 2, hour := 3, minute := 4 } ∧
    strictFormatMatch (pyStrip "2025-1-2 3:4".data) = false ∧
    strictFormatMatch (pyStrip "2025-02-30 10:00".data) = true ∧
    parse_datetime "2025-02-30 10:00" = none := by
  refine ⟨?_, by decide, by decide, ?_⟩ <;> decide

/-- A one-or-two-digit field (`%m`, `%d`, `%H`, `%M`) and its value. -/
def FieldDigits (cs : List Char) (v : Nat) : Prop :=
  (∃ c, cs = [c] ∧ c.isDigit = true ∧ v = digitVal c) ∨
  (∃ c1 c2, cs = [c1, c2] ∧ c1.isDigit = true ∧ c2.isDigit = true ∧
    v = digitVal c1 * 10 + digitVal c2)

/-- A four-digit year field (`%Y`) and its value. -/
def YearDigits (cs : List Char) (v : Nat) : Prop :=
  ∃ c1 c2 c3 c4, cs = [c1, c2, c3, c4] ∧ c1.isDigit = true ∧ c2.isDigit = true ∧
    c3.isDigit = true ∧ c4.isDigit = true ∧
    v = ((digitVal c1 * 10 + digitVal c2) * 10 + digitVal c3) * 10 + digitVal c4

/-- The separator of `"%Y-%m-%d %H:%M"`: a nonempty whitespace run. -/
def SpaceSep (cs : List Char) : Prop :=
  cs ≠ [] ∧ ∀ c ∈ cs, isPySpace c = true

/-- The separator of `"%Y-%m-%dT%H:%M"`: a single `T`, case-insensitively. -/
def TSep (cs : List Char) : Prop :=
  cs = ['T'] ∨ cs = ['t']

/-- The field values `datetime(...)` accepts for these formats. -/
def ValidDT (dt : PyDateTime) : Prop :=
  1 ≤ dt.year ∧ 1 ≤ dt.month ∧ dt.month ≤ 12 ∧ 1 ≤ dt.day ∧
  dt.day ≤ daysInMonth dt.year dt.month ∧ dt.hour ≤ 23 ∧ dt.minute ≤ 59

/-- The text decomposes as `year ++ "-" ++ month ++ "-" ++ day ++ separator
++ hour ++ ":" ++ minute` with the stated field shapes and the given
values. -/
def MatchesFormat (Sep : List Char → Prop) (text : List Char)
    (dt : PyDateTime) : Prop :=
  ∃ ys ms ds ws hs ns,
    text = ys ++ '-' :: (ms ++ '-' :: (ds ++ (ws ++ (hs ++ ':' :: ns)))) ∧
    YearDigits ys dt.year ∧ FieldDigits ms dt.month ∧ FieldDigits ds dt.day ∧
    Sep ws ∧ FieldDigits hs dt.hour ∧ FieldDigits ns dt.minute

-- Token-level soundness: a successful parse step exhibits the consumed text.

theorem take4Digits_sound (l r : List Char) (v : Nat)
    (h : take4Digits l = some (v, r)) : ∃ ys, l = ys ++ r ∧ YearDigits ys v := by
  match l with
  | [] => cases h
  | [c1] => cases h
  | [c1, c2] => cases h
  | [c1, c2, c3] => cases h
  | c1 :: c2 :: c3 :: c4 :: rest =>
    by_cases hd : (c1.isDigit && c2.isDigit && c3.isDigit && c4.isDigit) = true
    · rw [take4Digits, if_pos hd] at h
      obtain ⟨hv, hr⟩ := Prod.mk.injEq .. ▸ (Option.some.injEq _ _).mp h
      simp only [Bool.and_eq_true] at hd
      exact ⟨[c1, c2, c3, c4], by simp [hr],
        c1, c2, c3, c4, rfl, hd.1.1.1, hd.1.1.2, hd.1.2, hd.2, hv.symm⟩
    · rw [take4Digits, if_neg hd] at h
      cases h

theorem take2Digits_sound (l r : List Char) (v : Nat)
    (h : take2Digits l = some (v, r)) : ∃ cs, l = cs ++ r ∧ FieldDigits cs v := by
  match l with
  | [] => cases h
  | [c] =>
    by_cases hd : c.isDigit = true
    · rw [take2Digits, if_pos hd] at h
      obtain ⟨hv, hr⟩ := Prod.mk.injEq .. ▸ (Option.some.injEq _ _).mp h
      exact ⟨[c], by simp [hr], Or.inl ⟨c, rfl, hd, hv.symm⟩⟩
    · rw [take2Digits, if_neg hd] at h
      cases h
  | c1 :: c2 :: rest =>
    by_cases hd1 : c1.isDigit = true
    · by_cases hd2 : c2.isDigit = true
      · rw [take2Digits, if_pos hd1, if_pos hd2] at h
        obtain ⟨hv, hr⟩ := Prod.mk.injEq .. ▸ (Option.some.injEq _ _).mp h
        exact ⟨[c1, c2], by simp [hr], Or.inr ⟨c1, c2, rfl, hd1, hd2, hv.symm⟩⟩
      · rw [take2Digits, if_pos hd1, if_neg hd2] at h
        obtain ⟨hv, hr⟩ := Prod.mk.injEq .. ▸ (Option.some.injEq _ _).mp h
        exact ⟨[c1], by simp [hr], Or.inl ⟨c1, rfl, hd1, hv.symm⟩⟩
    · rw [take2Digits, if_neg hd1] at h
      cases h

theorem expectChar_sound (c : Char) (l r : List Char)
    (h : expectChar c l = some r) : l = c :: r := by
  match l with
  | [] => cases h
  | d :: rest =>
    by_cases hc : (d == c) = true
    · rw [expectChar, if_pos hc] at h
      obtain rfl := (Option.some.injEq _ _).mp h
      rw [(beq_iff_eq ..).mp hc]
    · rw [expectChar, if_neg hc] at h
      cases h

theorem expectT_sound (l r : List Char)
    (h : expectT l = some r) : ∃ ws, l = ws ++ r ∧ TSep ws := by
  match l with
  | [] => cases h
  | d :: rest =>
    by_cases hc : (d == 'T' || d == 't') = true
    · rw [expectT, if_pos hc] at h
      obtain rfl := (Option.some.injEq _ _).mp h
      simp only [Bool.or_eq_true, beq_iff_eq] at hc
      rcases hc with rfl | rfl
      · exact ⟨['T'], rfl, Or.inl rfl⟩
      · exact ⟨['t'], rfl, Or.inr rfl⟩
    · rw [expectT, if_neg hc] at h
      cases h

theorem takeSpaces_sound (l r : List Char)
    (h : takeSpaces l = some r) : ∃ ws, l = ws ++ r ∧ SpaceSep ws := by
  match l with
  | [] => cases h
  | c :: rest =>
    by_cases hc : isPySpace c = true
    · rw [takeSpaces, if_pos hc] at h
      obtain rfl := (Option.some.injEq _ _).mp h
      refine ⟨c :: rest.takeWhile isPySpace, ?_, ?_, ?_⟩
      · rw [List.cons_append, List.takeWhile_append_dropWhile]
      · exact List.cons_ne_nil _ _
      · intro x hx
        rcases List.mem_cons.mp hx with rfl | hx
        · exact hc
        · exact List.mem_takeWhile_imp hx
    · rw [takeSpaces, if_neg hc] at h
      cases h

theorem mkDatetime_sound (y m d h mi : Nat) (dt : PyDateTime)
    (hmk : mkDatetime y m d h mi = some dt) :
    dt = { year := y, month := m, day := d, hour := h, minute := mi } ∧
      ValidDT dt := by
  by_cases hcond : 1 ≤ y ∧ 1 ≤ m ∧ m ≤ 12 ∧ 1 ≤ d ∧ d ≤ daysInMonth y m ∧
      h ≤ 23 ∧ mi ≤ 59
  · rw [mkDatetime, if_pos hcond] at hmk
    obtain rfl := ((Option.some.injEq _ _).mp hmk).symm
    exact ⟨rfl, hcond⟩
  · rw [mkDatetime, if_neg hcond] at hmk
    cases hmk

-- Token-level completeness: on correctly shaped text each step consumes
-- exactly its field (the greedy grab cannot overshoot, since every
-- following character is a non-digit).

theorem take4Digits_complete (ys r : List Char) (v : Nat) (h : YearDigits ys v) :
    take4Digits (ys ++ r) = some (v, r) := by
  obtain ⟨c1, c2, c3, c4, rfl, h1, h2, h3, h4, rfl⟩ := h
  simp [take4Digits, h1, h2, h3, h4]

/-- The text right after a one-or-two-digit field, as the two formats shape
it: either nothing, or a character that is not a digit. -/
def NextNotDigit (r : List Char) : Prop :=
  r = [] ∨ ∃ d r2, r = d :: r2 ∧ d.isDigit = false

theorem take2Digits_complete (cs r : List Char) (v : Nat) (h : FieldDigits cs v)
    (hr : NextNotDigit r) : take2Digits (cs ++ r) = some (v, r) := by
  rcases h with ⟨c, rfl, hd, rfl⟩ | ⟨c1, c2, rfl, hd1, hd2, rfl⟩
  · rcases hr with rfl | ⟨d, r2, rfl, hnd⟩
    · simp [take2Digits, hd]
    · simp [take2Digits, hd, hnd]
  · simp [take2Digits, hd1, hd2]

theorem take2Digits_complete_nil (cs : List Char) (v : Nat) (h : FieldDigits cs v) :
    take2Digits cs = some (v, []) := by
  have h2 := take2Digits_complete cs [] v h (Or.inl rfl)
  rwa [List.append_nil] at h2

theorem expectChar_complete (c : Char) (r : List Char) :
    expectChar c (c :: r) = some r := by
  simp [expectChar]

theorem expectT_complete (ws r : List Char) (h : TSep ws) :
    expectT (ws ++ r) = some r := by
  rcases h with rfl | rfl <;> simp [expectT]

theorem isDigit_not_space (c : Char) (h : c.isDigit = true) :
    isPySpace c = false := by
  cases hsp : isPySpace c
  · rfl
  · exfalso
    unfold isPySpace at hsp
    simp only [Bool.or_eq_true, beq_iff_eq] at hsp
    rcases hsp with ((((rfl | rfl) | rfl) | rfl) | rfl) | rfl <;>
      exact absurd h (by decide)

theorem dropWhile_all_append (p : Char → Bool) (ws r : List Char)
    (hall : ∀ c ∈ ws, p c = true)
    (hr : r = [] ∨ ∃ d r2, r = d :: r2 ∧ p d = false) :
    (ws ++ r).dropWhile p = r := by
  induction ws with
  | nil =>
    rcases hr with rfl | ⟨d, r2, rfl, hd⟩
    · rfl
    · simp [List.dropWhile_cons, hd]
  | cons c cs ih =>
    rw [List.cons_append, List.dropWhile_cons,
      if_pos (hall c (List.mem_cons_self c cs))]
    exact ih (fun x hx => hall x (List.mem_cons_of_mem c hx))

theorem takeSpaces_complete (ws r : List Char) (hws : SpaceSep ws)
    (hr : ∃ d r2, r = d :: r2 ∧ d.isDigit = true) :
    takeSpaces (ws ++ r) = some r := by
  obtain ⟨hne, hall⟩ := hws
  cases ws with
  | nil => exact absurd rfl hne
  | cons w ws2 =>
    rw [List.cons_append]
    have hw : isPySpace w = true := hall w (List.mem_cons_self w ws2)
    have hdrop : (ws2 ++ r).dropWhile isPySpace = r := by
      apply dropWhile_all_append
      · intro x hx
        exact hall x (List.mem_cons_of_mem w hx)
      · obtain ⟨d, r2, rfl, hd⟩ := hr
        exact Or.inr ⟨d, r2, rfl, isDigit_not_space d hd⟩
    simp [takeSpaces, hw, hdrop]

theorem mkDatetime_complete (dt : PyDateTime) (hv : ValidDT dt) :
    mkDatetime dt.year dt.month dt.day dt.hour dt.minute = some dt := by
  unfold ValidDT at hv
  rw [mkDatetime, if_pos hv]

theorem FieldDigits_head (cs : List Char) (v : Nat) (h : FieldDigits cs v) :
    ∃ d cs2, cs = d :: cs2 ∧ d.isDigit = true := by
  rcases h with ⟨c, rfl, hd, _⟩ | ⟨c1, c2, rfl, hd1, _, _⟩
  · exact ⟨c, [], rfl, hd⟩
  · exact ⟨c1, [c2], rfl, hd1⟩

/-- Soundness of one strptime attempt: a successful parse exhibits the
format decomposition of the input and a valid result. -/
theorem tryFormat_sound (Sep : List Char → Prop)
    (sep : List Char → Option (List Char))
    (hsep : ∀ l r, sep l = some r → ∃ ws, l = ws ++ r ∧ Sep ws)
    (l : List Char) (dt : PyDateTime)
    (h : tryFormat sep l = some dt) :
    ValidDT dt ∧ MatchesFormat Sep l dt := by
  unfold tryFormat at h
  cases h4 : take4Digits l with
  | none => rw [h4] at h; simp only [Option.none_bind] at h; exact Option.noConfusion h
  | some yr =>
  rw [h4] at h; simp only [Option.some_bind] at h
  cases hc1 : expectChar '-' yr.2 with
  | none => rw [hc1] at h; simp only [Option.none_bind] at h; exact Option.noConfusion h
  | some r2 =>
  rw [hc1] at h; simp only [Option.some_bind] at h
  cases hm : take2Digits r2 with
  | none => rw [hm] at h; simp only [Option.none_bind] at h; exact Option.noConfusion h
  | some mr =>
  rw [hm] at h; simp only [Option.some_bind] at h
  cases hc2 : expectChar '-' mr.2 with
  | none => rw [hc2] at h; simp only [Option.none_bind] at h; exact Option.noConfusion h
  | some r4 =>
  rw [hc2] at h; simp only [Option.some_bind] at h
  cases hd : take2Digits r4 with
  | none => rw [hd] at h; simp only [Option.none_bind] at h; exact Option.noConfusion h
  | some dr =>
  rw [hd] at h; simp only [Option.some_bind] at h
  cases hs6 : sep dr.2 with
  | none => rw [hs6] at h; simp only [Option.none_bind] at h; exact Option.noConfusion h
  | some r6 =>
  rw [hs6] at h; simp only [Option.some_bind] at h
  cases hh : take2Digits r6 with
  | none => rw [hh] at h; simp only [Option.none_bind] at h; exact Option.noConfusion h
  | some hp =>
  rw [hh] at h; simp only [Option.some_bind] at h
  cases hc3 : expectChar ':' hp.2 with
  | none => rw [hc3] at h; simp only [Option.none_bind] at h; exact Option.noConfusion h
  | some r8 =>
  rw [hc3] at h; simp only [Option.some_bind] at h
  cases hn : take2Digits r8 with
  | none => rw [hn] at h; simp only [Option.none_bind] at h; exact Option.noConfusion h
  | some np =>
  rw [hn] at h; simp only [Option.some_bind] at h
  by_cases h9 : np.2 = []
  · rw [if_pos h9] at h
    obtain ⟨rfl, hvdt⟩ := mkDatetime_sound _ _ _ _ _ _ h
    obtain ⟨ys, hys_eq, hys⟩ := take4Digits_sound l yr.2 yr.1 (by rw [h4])
    obtain ⟨ms, hms_eq, hms⟩ := take2Digits_sound r2 mr.2 mr.1 (by rw [hm])
    obtain ⟨ds, hds_eq, hds⟩ := take2Digits_sound r4 dr.2 dr.1 (by rw [hd])
    obtain ⟨ws, hws_eq, hws⟩ := hsep dr.2 r6 hs6
    obtain ⟨hcs, hhs_eq, hhs⟩ := take2Digits_sound r6 hp.2 hp.1 (by rw [hh])
    obtain ⟨ncs, hns_eq, hns⟩ := take2Digits_sound r8 np.2 np.1 (by rw [hn])
    have hr1 : yr.2 = '-' :: r2 := expectChar_sound '-' yr.2 r2 hc1
    have hr3 : mr.2 = '-' :: r4 := expectChar_sound '-' mr.2 r4 hc2
    have hr7 : hp.2 = ':' :: r8 := expectChar_sound ':' hp.2 r8 hc3
    refine ⟨hvdt, ys, ms, ds, ws, hcs, ncs, ?_, hys, hms, hds, hws, hhs, hns⟩
    rw [hys_eq, hr1, hms_eq, hr3, hds_eq, hws_eq, hhs_eq, hr7, hns_eq, h9]
    simp
  · rw [if_neg h9] at h
    exact Option.noConfusion h

theorem isPySpace_not_digit (c : Char) (h : isPySpace c = true) :
    c.isDigit = false := by
  unfold isPySpace at h
  simp only [Bool.or_eq_true, beq_iff_eq] at h
  rcases h with ((((rfl | rfl) | rfl) | rfl) | rfl) | rfl <;> decide

/-- Completeness of one strptime attempt: on text of the format's shape with
valid field values, the attempt succeeds with exactly those values. -/
theorem tryFormat_complete (Sep : List Char → Prop)
    (sep : List Char → Option (List Char))
    (hsepc : ∀ ws r, Sep ws → (∃ d r2, r = d :: r2 ∧ d.isDigit = true) →
      sep (ws ++ r) = some r)
    (hsep_head : ∀ ws, Sep ws → ∃ d w2, ws = d :: w2 ∧ d.isDigit = false)
    (text : List Char) (dt : PyDateTime)
    (hv : ValidDT dt) (hm : MatchesFormat Sep text dt) :
    tryFormat sep text = some dt := by
  obtain ⟨ys, ms, ds, ws, hcs, ncs, htext, hys, hms, hds, hws, hhs, hns⟩ := hm
  subst htext
  unfold tryFormat
  rw [take4Digits_complete ys _ dt.year hys]
  simp only [Option.some_bind]
  rw [expectChar_complete]
  simp only [Option.some_bind]
  rw [take2Digits_complete ms _ dt.month hms (Or.inr ⟨'-', _, rfl, by decide⟩)]
  simp only [Option.some_bind]
  rw [expectChar_complete]
  simp only [Option.some_bind]
  obtain ⟨w0, w2, hws_eq, hw0⟩ := hsep_head ws hws
  rw [take2Digits_complete ds _ dt.day hds
    (Or.inr ⟨w0, w2 ++ (hcs ++ ':' :: ncs), by rw [hws_eq]; rfl, hw0⟩)]
  simp only [Option.some_bind]
  obtain ⟨hd0, hcs2, hhcs_eq, hhd0⟩ := FieldDigits_head hcs dt.hour hhs
  rw [hsepc ws (hcs ++ ':' :: ncs) hws
    ⟨hd0, hcs2 ++ ':' :: ncs, by rw [hhcs_eq]; rfl, hhd0⟩]
  simp only [Option.some_bind]
  rw [take2Digits_complete hcs _ dt.hour hhs (Or.inr ⟨':', ncs, rfl, by decide⟩)]
  simp only [Option.some_bind]
  rw [expectChar_complete]
  simp only [Option.some_bind]
  rw [take2Digits_complete_nil ncs dt.minute hns]
  simp only [Option.some_bind]
  rw [if_pos trivial]
  exact mkDatetime_complete dt hv

theorem tryFormat_spacefail_aux (c : Char) (hc : isPySpace c = false)
    (hcd : c.isDigit = false) (ys ms ds hcs ncs : List Char) (dt : PyDateTime)
    (hys : YearDigits ys dt.year) (hms : FieldDigits ms dt.month)
    (hds : FieldDigits ds dt.day) :
    tryFormat takeSpaces
      (ys ++ '-' :: (ms ++ '-' :: (ds ++ c :: (hcs ++ ':' :: ncs)))) = none := by
  unfold tryFormat
  rw [take4Digits_complete ys _ dt.year hys]
  simp only [Option.some_bind]
  rw [expectChar_complete]
  simp only [Option.some_bind]
  rw [take2Digits_complete ms _ dt.month hms (Or.inr ⟨'-', _, rfl, by decide⟩)]
  simp only [Option.some_bind]
  rw [expectChar_complete]
  simp only [Option.some_bind]
  rw [take2Digits_complete ds _ dt.day hds (Or.inr ⟨c, hcs ++ ':' :: ncs, rfl, hcd⟩)]
  simp only [Option.some_bind]
  rw [show takeSpaces (c :: (hcs ++ ':' :: ncs)) = none from by
    simp [takeSpaces, hc]]
  simp only [Option.none_bind]

/-- The first format attempt (space separator) fails on text shaped for the
`T` separator: the parse reaches the separator and `\s+` rejects `T`/`t`. -/
theorem tryFormat_spacefail (l : List Char) (dt : PyDateTime)
    (hm : MatchesFormat TSep l dt) : tryFormat takeSpaces l = none := by
  obtain ⟨ys, ms, ds, ws, hcs, ncs, htext, hys, hms, hds, hws, hhs, hns⟩ := hm
  subst htext
  rcases hws with rfl | rfl
  · exact tryFormat_spacefail_aux 'T' (by decide) (by decide) ys ms ds hcs ncs dt
      hys hms hds
  · exact tryFormat_spacefail_aux 't' (by decide) (by decide) ys ms ds hcs ncs dt
      hys hms hds

theorem MatchesFormat_ne_nil (Sep : List Char → Prop) (text : List Char)
    (dt : PyDateTime) (hm : MatchesFormat Sep text dt) : text ≠ [] := by
  obtain ⟨ys, ms, ds, ws, hcs, ncs, htext, hys, _⟩ := hm
  obtain ⟨c1, c2, c3, c4, rfl, _⟩ := hys
  subst htext
  simp

/-- C9 as amended: after trimming, `parse_datetime` accepts exactly the
inputs of the shape `year-month-day<sep>hour:minute` where the year is
exactly four digits, month, day, hour and minute are one or two digits, the
separator is a nonempty whitespace run (first format) or a `T`/`t` (second
format), and the five values form a valid calendar date-time (year ≥ 1,
month 1-12, day existing in that month, hour ≤ 23, minute ≤ 59); it returns
exactly those values.  Zero-padding is not required, and format-shaped but
calendar-invalid inputs are rejected. -/
theorem C9_parse_datetime_amended (s : String) (dt : PyDateTime) :
    parse_datetime s = some dt ↔
      ValidDT dt ∧
        (MatchesFormat SpaceSep (pyStrip s.data) dt ∨
         MatchesFormat TSep (pyStrip s.data) dt) := by
  rw [parse_datetime_def]
  constructor
  · intro h
    by_cases hnil : pyStrip s.data = []
    · rw [if_pos hnil] at h
      exact Option.noConfusion h
    · rw [if_neg hnil] at h
      cases h1 : tryFormat takeSpaces (pyStrip s.data) with
      | some dt1 =>
        rw [h1] at h
        have h2 : some dt1 = some dt := h
        obtain rfl := (Option.some.injEq _ _).mp h2
        obtain ⟨hv, hmf⟩ :=
          tryFormat_sound SpaceSep takeSpaces takeSpaces_sound _ dt1 h1
        exact ⟨hv, Or.inl hmf⟩
      | none =>
        rw [h1] at h
        have h2 : tryFormat expectT (pyStrip s.data) = some dt := h
        obtain ⟨hv, hmf⟩ := tryFormat_sound TSep expectT expectT_sound _ dt h2
        exact ⟨hv, Or.inr hmf⟩
  · rintro ⟨hv, hmf | hmf⟩
    · have hne := MatchesFormat_ne_nil SpaceSep (pyStrip s.data) dt hmf
      have hTF : tryFormat takeSpaces (pyStrip s.data) = some dt :=
        tryFormat_complete SpaceSep takeSpaces
          (fun ws r hws hr => takeSpaces_complete ws r hws hr)
          (fun ws hws => by
            obtain ⟨hwne, hall⟩ := hws
            cases ws with
            | nil => exact absurd rfl hwne
            | cons w w2 =>
              exact ⟨w, w2, rfl,
                isPySpace_not_digit w (hall w (List.mem_cons_self w w2))⟩)
          _ dt hv hmf
      rw [if_neg hne, hTF]
    · have hne := MatchesFormat_ne_nil TSep (pyStrip s.data) dt hmf
      have h1 : tryFormat takeSpaces (pyStrip s.data) = none :=
        tryFormat_spacefail _ dt hmf
      have h2 : tryFormat expectT (pyStrip s.data) = some dt :=
        tryFormat_complete TSep expectT
          (fun ws r hws _ => expectT_complete ws r hws)
          (fun ws hws => by
            rcases hws with rfl | rfl
            · exact ⟨'T', [], rfl, by decide⟩
            · exact ⟨'t', [], rfl, by decide⟩)
          _ dt hv hmf
      rw [if_neg hne, h1]
      exact h2
